import Mathlib

/-!
Verification of the text-extraction and cleaning heuristics of
`1_data_collection_and_preparation/src/extrair_texto.py`.

The Python module is shallowly embedded below.  Numeric page heights and
the fractional zone/threshold constants (Python floats) are modelled as
exact rationals; the float constants 0.15, 0.40, 0.30 are represented by
the rationals 15/100, 40/100, 30/100.  Strings are Lean `String`s
(lists of unicode characters); the Python unicode case and whitespace
predicates are modelled faithfully on ASCII and the Latin-1 range (the
character repertoire of the documents and of every constant in the
source); characters outside that range are treated as uncased
non-letters.
-/

namespace Extrair

/-! ### Kernel-computable rational arithmetic

The `Rat` arithmetic of the standard library is `@[irreducible]`, so the
executable definitions below use `mkRat`-based wrappers, each proved
equal to the corresponding field operation on `ℚ`. -/

/-- Rational multiplication, kernel-computable; equals `a * b`. -/
def qmul (a b : ℚ) : ℚ := mkRat (a.num * b.num) (a.den * b.den)

/-- Rational subtraction, kernel-computable; equals `a - b`. -/
def qsub (a b : ℚ) : ℚ := mkRat (a.num * b.den - b.num * a.den) (a.den * b.den)

/-- Embedding of a natural number into `ℚ`, kernel-computable. -/
def qnat (n : Nat) : ℚ := mkRat n 1

/-- Python float constant `TOP_FRAC = 0.15`, as an exact rational. -/
def TOP_FRAC : ℚ := mkRat 15 100

/-- Python float constant `BOTTOM_FRAC = 0.15`, as an exact rational. -/
def BOTTOM_FRAC : ℚ := mkRat 15 100

/-- Python float constant `REPEAT_THRESHOLD = 0.40`, as an exact rational. -/
def REPEAT_THRESHOLD : ℚ := mkRat 40 100

/-- Python float constant `TOP_FRAC_ANNEX = 0.30`, as an exact rational. -/
def TOP_FRAC_ANNEX : ℚ := mkRat 30 100

/-- Python constant `STRICT_UPPERCASE_ANNEX = True`. -/
def STRICT_UPPERCASE_ANNEX : Bool := true

/-- Python constant `REMOVE_FROM_ANEXO = False`. -/
def REMOVE_FROM_ANEXO : Bool := false

/-- The `BANNED_SUBSTRS` blacklist, verbatim from the source. -/
def BANNED_SUBSTRS : List String :=
  [ "câmara dos deputados",
    "gabinete do deputado",
    "gabinete do deputado federal",
    "assinado eletronicamente",
    "para verificar a assinatura",
    "@camara.leg.br",
    "praça dos três poderes",
    "cep 70160",
    "mesa",
    "deputado federal",
    "projeto de lei n",
    "projeto de lei nº",
    "gabinete" ]

/-! ## Character classes

`pySpace` models the characters matched by the regex class `\s` (and
stripped by `str.strip()`) for Python unicode strings. -/

/-- Unicode whitespace, as recognised by Python regex `\s` and `str.strip`. -/
def pySpace (c : Char) : Bool :=
  [9, 10, 11, 12, 13, 28, 29, 30, 31, 32, 133, 160, 5760,
   8192, 8193, 8194, 8195, 8196, 8197, 8198, 8199, 8200, 8201, 8202,
   8232, 8233, 8239, 8287, 12288].contains c.toNat

/-- The characters of the noise class in
`re.sub` pattern `[_ apostrophe . · • ● ◦ ▪ ▫ ⋅ ∙ …]{3,}` of `normalize_line`
(codepoints 95, 39, 46, 183, 8226, 9679, 9702, 9642, 9643, 8901, 8729, 8230). -/
def isNoise (c : Char) : Bool :=
  [95, 39, 46, 183, 8226, 9679, 9702, 9642, 9643, 8901, 8729, 8230].contains c.toNat

/-- ASCII decimal digit, the class `\d` of the source regexes (the
documents are ASCII-numbered; non-ASCII unicode digits are not modelled). -/
def isDigitC (c : Char) : Bool := c.isDigit

/-- Python `str.lower` on one character, faithful on ASCII and Latin-1
(plus U+0178); characters outside that range are uncased in this model. -/
def pyLowerChar (c : Char) : Char :=
  let n := c.toNat
  if 65 ≤ n ∧ n ≤ 90 then Char.ofNat (n + 32)
  else if 192 ≤ n ∧ n ≤ 222 ∧ n ≠ 215 then Char.ofNat (n + 32)
  else if n = 376 then Char.ofNat 255
  else c

/-- Python `str.casefold` on one character; `ß` (U+00DF) casefolds to
`ss` and `µ` (U+00B5) to `μ` (U+03BC), the rest follows `pyLowerChar`. -/
def pyCasefoldChar (c : Char) : List Char :=
  if c.toNat = 223 then [Char.ofNat 115, Char.ofNat 115]
  else if c.toNat = 181 then [Char.ofNat 956]
  else [pyLowerChar c]

/-- Python `str.casefold` on a character list. -/
def pyCasefold (l : List Char) : List Char := l.flatMap pyCasefoldChar

/-- Python `str.isalpha` on one character (ASCII and Latin-1 letters). -/
def pyIsAlpha (c : Char) : Bool :=
  let n := c.toNat
  decide ((65 ≤ n ∧ n ≤ 90) ∨ (97 ≤ n ∧ n ≤ 122) ∨ n = 170 ∨ n = 181 ∨ n = 186 ∨
    (192 ≤ n ∧ n ≤ 214) ∨ (216 ≤ n ∧ n ≤ 246) ∨ (248 ≤ n ∧ n ≤ 255))

/-- Python `str.isupper` on one character (ASCII and Latin-1). -/
def pyIsUpper (c : Char) : Bool :=
  let n := c.toNat
  decide ((65 ≤ n ∧ n ≤ 90) ∨ (192 ≤ n ∧ n ≤ 214) ∨ (216 ≤ n ∧ n ≤ 222))

/-- Python `str.upper` on one character: `ß` maps to `SS`, `ÿ` to `Ÿ`,
`µ` to `Μ`; ASCII and Latin-1 lowercase letters map up by 32. -/
def pyUpperChar (c : Char) : List Char :=
  let n := c.toNat
  if n = 223 then [Char.ofNat 83, Char.ofNat 83]
  else if n = 255 then [Char.ofNat 376]
  else if n = 181 then [Char.ofNat 924]
  else if (97 ≤ n ∧ n ≤ 122) ∨ (224 ≤ n ∧ n ≤ 254 ∧ n ≠ 247) then [Char.ofNat (n - 32)]
  else [c]

/-- Python `str.upper` on a character list. -/
def pyUpperL (l : List Char) : List Char := l.flatMap pyUpperChar

/-! ## `normalize_line`

The function performs, in order:
`s = re.sub(noiseClass{3,}, " ", s)`, `s = re.sub(r"\s+", " ", s)`,
`return s.strip()`.  The first substitution replaces every maximal run
of three or more noise characters by one space (`squashNoise`), the
second replaces every maximal whitespace run by one space
(`collapseWs`), and `pyStrip` models `str.strip()`. -/

/-- Emit a finished noise run: runs of length at least 3 become one
space, shorter runs are kept (the `{3,}` quantifier of the regex). -/
def flushRun (run : List Char) : List Char :=
  if 3 ≤ run.length then [Char.ofNat 32] else run

/-- Worker for `squashNoise`: `run` is the noise run currently open. -/
def squashGo (run : List Char) : List Char → List Char
  | [] => flushRun run
  | c :: cs =>
    if isNoise c then squashGo (run ++ [c]) cs
    else flushRun run ++ c :: squashGo [] cs

/-- First substitution of `normalize_line`: each maximal run of three or
more noise characters is replaced by a single space. -/
def squashNoise (l : List Char) : List Char := squashGo [] l

/-- Worker for `collapseWs`; the flag records whether the previous
character was whitespace (in which case further whitespace is dropped). -/
def collapseGo (prevWs : Bool) : List Char → List Char
  | [] => []
  | c :: cs =>
    if pySpace c then
      if prevWs then collapseGo true cs else Char.ofNat 32 :: collapseGo true cs
    else c :: collapseGo false cs

/-- Second substitution of `normalize_line`: `re.sub(r"\s+", " ", s)`,
each maximal whitespace run becomes a single space. -/
def collapseWs (l : List Char) : List Char := collapseGo false l

/-- Python `str.strip()` on a character list. -/
def pyStrip (l : List Char) : List Char :=
  ((l.dropWhile pySpace).reverse.dropWhile pySpace).reverse

/-- Python `str.strip()` on a `String`. -/
def pyStripStr (s : String) : String := ⟨pyStrip s.data⟩

/-- The source function `normalize_line`. -/
def normalize_line (s : String) : String :=
  ⟨pyStrip (collapseWs (squashNoise s.data))⟩

/-! ## `is_page_number`

Three `re.fullmatch` checks on the stripped line.  Each regex is
deterministic (its character classes at the choice points are disjoint),
so each is embedded as a direct maximal-munch decision procedure. -/

/-- `re.fullmatch(r"\d{1,4}", t)`. -/
def matchDigits14 (t : List Char) : Bool :=
  !t.isEmpty && t.all isDigitC && decide (t.length ≤ 4)

/-- Consume `\s+` (at least one whitespace character) and return the
rest, or `none` when the input does not start with whitespace. -/
def reqSpaces (r : List Char) : Option (List Char) :=
  match r with
  | c :: cs => if pySpace c then some (cs.dropWhile pySpace) else none
  | [] => none

/-- Tail `\s+de\s+\d{1,4}` (to the end) of the Página regex, case-insensitive. -/
def paginaDeTail (r : List Char) : Bool :=
  match reqSpaces r with
  | none => false
  | some r1 =>
    match r1 with
    | d :: e :: r2 =>
      pyLowerChar d = Char.ofNat 100 && pyLowerChar e = Char.ofNat 101 &&
      (match reqSpaces r2 with
       | none => false
       | some r3 =>
         let ds := r3.takeWhile isDigitC
         let r4 := r3.dropWhile isDigitC
         decide (1 ≤ ds.length ∧ ds.length ≤ 4) && r4.isEmpty)
    | _ => false

/-- Tail `\s+\d{1,4}(\s+de\s+\d{1,4})?` (to the end) of the Página regex. -/
def paginaTail (r : List Char) : Bool :=
  match reqSpaces r with
  | none => false
  | some r1 =>
    let ds := r1.takeWhile isDigitC
    let r2 := r1.dropWhile isDigitC
    decide (1 ≤ ds.length ∧ ds.length ≤ 4) && (r2.isEmpty || paginaDeTail r2)

/-- `re.fullmatch(r"(?i)p[áa]gina\s+\d{1,4}(\s+de\s+\d{1,4})?", t)`. -/
def matchPagina (t : List Char) : Bool :=
  match t with
  | p0 :: p1 :: p2 :: p3 :: p4 :: p5 :: rest =>
    pyLowerChar p0 = Char.ofNat 112 &&
    (pyLowerChar p1 = Char.ofNat 225 || pyLowerChar p1 = Char.ofNat 97) &&
    pyLowerChar p2 = Char.ofNat 103 && pyLowerChar p3 = Char.ofNat 105 &&
    pyLowerChar p4 = Char.ofNat 110 && pyLowerChar p5 = Char.ofNat 97 &&
    paginaTail rest
  | _ => false

/-- `re.fullmatch(r"\d{1,4}\s*/\s*\d{1,4}", t)`. -/
def matchSlash (t : List Char) : Bool :=
  let d1 := t.takeWhile isDigitC
  let r1 := (t.dropWhile isDigitC).dropWhile pySpace
  decide (1 ≤ d1.length ∧ d1.length ≤ 4) &&
  (match r1 with
   | c :: r2 =>
     c = Char.ofNat 47 &&
     (let r3 := r2.dropWhile pySpace
      let d2 := r3.takeWhile isDigitC
      decide (1 ≤ d2.length ∧ d2.length ≤ 4) && (r3.dropWhile isDigitC).isEmpty)
   | [] => false)

/-- The source function `is_page_number`. -/
def is_page_number (line : String) : Bool :=
  let t := pyStrip line.data
  matchDigits14 t || matchPagina t || matchSlash t

/-! ## `should_remove_global`

Blacklist check on the casefolded line, protocol-code search, and the
(malformed) standalone bill-identifier fullmatch. -/

/-- Python substring containment `pat in l` on character lists. -/
def isInfixL (pat : List Char) : List Char → Bool
  | [] => pat.isEmpty
  | c :: cs => pat.isPrefixOf (c :: cs) || isInfixL pat cs

/-- Blacklist branch: `any(b in l for b in BANNED_SUBSTRS)` where
`l = line.casefold()`. -/
def srg_banned (line : String) : Bool :=
  BANNED_SUBSTRS.any (fun b => isInfixL b.data (pyCasefold line.data))

/-- Body `\s*cd\d{6,}\s*(\*|$)` of the protocol regex, matched at the
head of `l` (which is already casefolded). -/
def protoCore (l : List Char) : Bool :=
  match l.dropWhile pySpace with
  | c :: d :: r =>
    c = Char.ofNat 99 && d = Char.ofNat 100 &&
    (let ds := r.takeWhile isDigitC
     let r2 := r.dropWhile isDigitC
     decide (6 ≤ ds.length) &&
     (match r2.dropWhile pySpace with
      | [] => true
      | e :: _ => e = Char.ofNat 42))
  | _ => false

/-- Scan for the `\*` alternative of the leading group `(\*|^)`: the
core must match right after some literal asterisk. -/
def protoAux : List Char → Bool
  | [] => false
  | c :: cs => (c = Char.ofNat 42 && protoCore cs) || protoAux cs

/-- `re.search(r"(\*|^)\s*cd\d{6,}\s*(\*|$)", l)` on the casefolded line:
either the core matches at the start (the `^` alternative) or right
after a literal `*` somewhere in the line. -/
def protoSearch (l : List Char) : Bool := protoCore l || protoAux l

/-- Protocol-code branch of `should_remove_global`. -/
def srg_proto (line : String) : Bool := protoSearch (pyCasefold line.data)

/-- Steps of `re.fullmatch(r"(?i)pl\s*n?BACKTICK\.IBLE?s*\d{1,6}[slash,hyphen]\d{2,4}", t)`:
the pattern in the source is malformed and literally requires a backtick
(codepoint 96) followed by a period and the letters I, B, L.  This is
the suffix `\d{2,4}` to the end. -/
def plDigits2 (l : List Char) : Bool :=
  let ds := l.takeWhile isDigitC
  decide (2 ≤ ds.length ∧ ds.length ≤ 4) && (l.dropWhile isDigitC).isEmpty

/-- Suffix `\d{1,6}[slash,hyphen]\d{2,4}` of the bill-identifier pattern. -/
def plDigits1 (l : List Char) : Bool :=
  let ds := l.takeWhile isDigitC
  decide (1 ≤ ds.length ∧ ds.length ≤ 6) &&
  (match l.dropWhile isDigitC with
   | c :: r => (c = Char.ofNat 47 || c = Char.ofNat 45) && plDigits2 r
   | [] => false)

/-- Suffix `E?s*\d{1,6}[slash,hyphen]\d{2,4}` of the bill-identifier pattern
(case-insensitive `E` and run of `s`). -/
def plAfterL (l : List Char) : Bool :=
  match l with
  | c :: rest =>
    if pyLowerChar c = Char.ofNat 101 then
      plDigits1 (rest.dropWhile (fun d => pyLowerChar d = Char.ofNat 115))
    else plDigits1 (l.dropWhile (fun d => pyLowerChar d = Char.ofNat 115))
  | [] => false

/-- Suffix `\.IBLE?s*...` of the bill-identifier pattern: a literal
period then the letters i, b, l (case-insensitive). -/
def plAfterBt (l : List Char) : Bool :=
  match l with
  | d :: a :: b :: c :: rest =>
    d = Char.ofNat 46 && pyLowerChar a = Char.ofNat 105 &&
    pyLowerChar b = Char.ofNat 98 && pyLowerChar c = Char.ofNat 108 &&
    plAfterL rest
  | _ => false

/-- Suffix `BACKTICK\. ...` of the bill-identifier pattern: the literal
backtick character (codepoint 96) left in the source pattern. -/
def plBacktick (l : List Char) : Bool :=
  match l with
  | c :: rest => c = Char.ofNat 96 && plAfterBt rest
  | [] => false

/-- Suffix `\s*n?BACKTICK...` of the bill-identifier pattern. -/
def plAfterPL (l : List Char) : Bool :=
  match l.dropWhile pySpace with
  | c :: rest =>
    if pyLowerChar c = Char.ofNat 110 then plBacktick rest
    else plBacktick (c :: rest)
  | [] => false

/-- The whole malformed bill-identifier fullmatch, applied to
`line.strip()` in the source. -/
def matchPL (l : List Char) : Bool :=
  match l with
  | a :: b :: rest =>
    pyLowerChar a = Char.ofNat 112 && pyLowerChar b = Char.ofNat 108 && plAfterPL rest
  | _ => false

/-- Standalone bill-identifier branch of `should_remove_global`. -/
def srg_pl (line : String) : Bool := matchPL (pyStrip line.data)

/-- The source function `should_remove_global`. -/
def should_remove_global (line : String) : Bool :=
  if line = "" then false
  else srg_banned line || srg_proto line || srg_pl line

/-! ## `looks_like_annex_title`

`re.match(r"^ANEXO(\s+[IVXLCDM0-9]+)?(\s*[-–—:].*)?$", s)` followed by
the length, uppercase-ratio and strict-uppercase checks.  The regex is
deterministic: after `ANEXO` either the line ends, or a separator
follows optional whitespace, or at least one whitespace then at least
one numeral character, after which the line ends or a separator tail
follows; the three character classes involved are pairwise disjoint.
The class `[IVXLCDM0-9]` is case-sensitive: it contains only the seven
uppercase roman-numeral letters and the ASCII digits. -/

/-- Separator class `[-–—:]` (codepoints 45, 8211, 8212, 58). -/
def annexSepChar (c : Char) : Bool :=
  c.toNat = 45 || c.toNat = 8211 || c.toNat = 8212 || c.toNat = 58

/-- Numeral class `[IVXLCDM0-9]`. -/
def annexNumChar (c : Char) : Bool :=
  [73, 86, 88, 76, 67, 68, 77].contains c.toNat || isDigitC c

/-- Group `\s*[-–—:].*$`: optional whitespace, a separator, anything. -/
def annexSepTail (r : List Char) : Bool :=
  match r.dropWhile pySpace with
  | c :: _ => annexSepChar c
  | [] => false

/-- What may follow `ANEXO`: end, a separator tail, or `\s+[IVXLCDM0-9]+`
followed by end or a separator tail. -/
def annexTailMatch (r : List Char) : Bool :=
  r.isEmpty || annexSepTail r ||
  (match r with
   | c :: cs =>
     pySpace c &&
     (match cs.dropWhile pySpace with
      | d :: _ =>
        annexNumChar d &&
        (let r2 := (cs.dropWhile pySpace).dropWhile annexNumChar
         r2.isEmpty || annexSepTail r2)
      | [] => false)
   | [] => false)

/-- The full annex-title regex `^ANEXO...$` (case-sensitive). -/
def annexRegexMatch (s : List Char) : Bool :=
  match s with
  | a :: n :: e :: x :: o :: rest =>
    a.toNat = 65 && n.toNat = 78 && e.toNat = 69 && x.toNat = 88 && o.toNat = 79 &&
    annexTailMatch rest
  | _ => false

/-- Word count `len(s.split())`: number of maximal nonwhitespace runs. -/
def wcGo (inWord : Bool) : List Char → Nat
  | [] => 0
  | c :: cs =>
    if pySpace c then wcGo false cs
    else (if inWord then 0 else 1) + wcGo true cs

/-- Python `len(s.split())`. -/
def wordsCount (l : List Char) : Nat := wcGo false l

/-- The source function `looks_like_annex_title`.  The uppercase-ratio
test `sum(isupper)/len(letters) < 0.90` is the exact rational
comparison `10 * upper < 9 * letters` (the float quotient equals the
rational one at every realisable boundary). -/
def looks_like_annex_title (line : String) : Bool :=
  let s := pyStrip line.data
  if !annexRegexMatch s then false
  else if s.getLast? = some (Char.ofNat 46) || decide (10 < wordsCount s) then false
  else
    let letters := s.filter pyIsAlpha
    if !letters.isEmpty && decide (10 * letters.countP pyIsUpper < 9 * letters.length)
    then false
    else if STRICT_UPPERCASE_ANNEX && !(pyUpperL s == s) then false
    else true

/-! ## Data model and spatial analysis

A `Page` bundles one entry of the parallel lists `pages_lines` and
`heights` of the source: the page height and the extracted
`(bounding box, normalized line)` pairs. -/

/-- Rectangle `(x0, y0, x1, y1)` of a text block. -/
structure BBox where
  x0 : ℚ
  y0 : ℚ
  x1 : ℚ
  y1 : ℚ
deriving DecidableEq

/-- A raw input page: height and text blocks (rectangle plus raw text,
possibly with embedded line breaks), per the document-provider contract. -/
structure RawPage where
  height : ℚ
  blocks : List (BBox × String)
deriving DecidableEq

/-- One page after block extraction: height plus normalized lines. -/
structure Page where
  height : ℚ
  lines : List (BBox × String)
deriving DecidableEq

/-- Unicode line boundaries recognised by Python `str.splitlines`. -/
def isLineBreak (c : Char) : Bool :=
  [10, 13, 11, 12, 28, 29, 30, 133, 8232, 8233].contains c.toNat

/-- Worker for `pySplitlines`; `cur` holds the current line reversed.
A `\r\n` pair counts as a single boundary (`\r` alone is in
`isLineBreak`). -/
def splitlinesGo : List Char → List Char → List (List Char)
  | cur, [] => if cur.isEmpty then [] else [cur.reverse]
  | cur, [c] => if isLineBreak c then [cur.reverse] else [(c :: cur).reverse]
  | cur, c :: d :: cs =>
    if c.toNat = 13 && d.toNat = 10 then cur.reverse :: splitlinesGo [] cs
    else if isLineBreak c then cur.reverse :: splitlinesGo [] (d :: cs)
    else splitlinesGo (c :: cur) (d :: cs)

/-- Python `str.splitlines()`. -/
def pySplitlines (l : List Char) : List (List Char) := splitlinesGo [] l

/-- The source function `extract_blocks`: split each block text into
lines, normalize each, keep the nonempty ones with the block rectangle. -/
def extract_blocks (rp : RawPage) : List (BBox × String) :=
  (rp.blocks.map (fun bt =>
    (pySplitlines bt.2.data).filterMap (fun lc =>
      let ln := normalize_line ⟨lc⟩
      if ln = "" then none else some (bt.1, ln)))).flatten

/-! ## `detect_headers_footers`

Per page, the *set* of distinct texts in the top (respectively bottom)
zone is collected (page numbers excluded on top); a text is a detected
header (footer) when the number of pages whose set contains it reaches
`REPEAT_THRESHOLD * n`.  Python sets are modelled by lists used only
through membership. -/

/-- Top-zone candidate texts of one page: `y0 <= h * TOP_FRAC` and not a
page number. -/
def topCandTexts (p : Page) : List String :=
  (p.lines.filter (fun bl =>
    decide (bl.1.y0 ≤ qmul p.height TOP_FRAC) && !is_page_number bl.2)).map Prod.snd

/-- Bottom-zone candidate texts of one page: `y0 >= h * (1 - BOTTOM_FRAC)`. -/
def botCandTexts (p : Page) : List String :=
  (p.lines.filter (fun bl =>
    decide (qmul p.height (qsub 1 BOTTOM_FRAC) ≤ bl.1.y0))).map Prod.snd

/-- Number of pages whose top candidate set contains `t` (`Counter`
update by a per-page `set`, i.e. presence, not occurrence count). -/
def topPresence (pages : List Page) (t : String) : Nat :=
  pages.countP (fun p => decide (t ∈ topCandTexts p))

/-- Number of pages whose bottom candidate set contains `t`. -/
def botPresence (pages : List Page) (t : String) : Nat :=
  pages.countP (fun p => decide (t ∈ botCandTexts p))

/-- The detected header set `top_rep`. -/
def topRepList (pages : List Page) : List String :=
  ((pages.map topCandTexts).flatten.dedup).filter
    (fun t => decide (qmul REPEAT_THRESHOLD (qnat pages.length) ≤ qnat (topPresence pages t)))

/-- The detected footer set `bot_rep`. -/
def botRepList (pages : List Page) : List String :=
  ((pages.map botCandTexts).flatten.dedup).filter
    (fun t => decide (qmul REPEAT_THRESHOLD (qnat pages.length) ≤ qnat (botPresence pages t)))

/-- The source function `detect_headers_footers`. -/
def detect_headers_footers (pages : List Page) : List String × List String :=
  (topRepList pages, botRepList pages)

/-! ## `find_annex_start_page` -/

/-- Does the page hold an annex-title candidate in its annex top zone
(`y0 <= h * TOP_FRAC_ANNEX`)? -/
def pageAnnexCandidate (p : Page) : Bool :=
  p.lines.any (fun bl =>
    decide (bl.1.y0 ≤ qmul p.height TOP_FRAC_ANNEX) && looks_like_annex_title bl.2)

/-- Indices of the annex-start candidate pages, in page order. -/
def annexCandidatePages (pages : List Page) : List Nat :=
  (pages.enum.filter (fun ip => pageAnnexCandidate ip.2)).map Prod.fst

/-- The source function `find_annex_start_page`: the last candidate page
is accepted only when `n_pages // 2 <= start` (Python floor division). -/
def find_annex_start_page (pages : List Page) : Option Nat :=
  match (annexCandidatePages pages).getLast? with
  | none => none
  | some start => if start < pages.length / 2 then none else some start

/-! ## `get_pdf_text_clean_from_doc`

The orchestrator, with the annex-truncation switch (`REMOVE_FROM_ANEXO`
in the source, a configuration value per the specification) passed
explicitly. -/

/-- The per-line exclusion test of the filtering loop (step 4 of the
source): boilerplate, header in the top zone, footer in the bottom
zone, or page number in either zone. -/
def dropLine (tr br : List String) (h : ℚ) (bl : BBox × String) : Bool :=
  should_remove_global bl.2 ||
  (decide (bl.2 ∈ tr) && decide (bl.1.y0 ≤ qmul h TOP_FRAC)) ||
  (decide (bl.2 ∈ br) && decide (qmul h (qsub 1 BOTTOM_FRAC) ≤ bl.1.y0)) ||
  (is_page_number bl.2 &&
    (decide (bl.1.y0 ≤ qmul h TOP_FRAC) || decide (qmul h (qsub 1 BOTTOM_FRAC) ≤ bl.1.y0)))

/-- The `keep` list of one page. -/
def cleanPageKeep (tr br : List String) (h : ℚ) (lines : List (BBox × String)) :
    List String :=
  (lines.filter (fun bl => !dropLine tr br h bl)).map Prod.snd

/-- `" ".join(keep).strip()` of one page. -/
def pageCleanText (tr br : List String) (p : Page) : String :=
  pyStripStr (String.intercalate " " (cleanPageKeep tr br p.height p.lines))

/-- Step 1 of the orchestrator: extraction of all pages. -/
def prepPages (doc : List RawPage) : List Page :=
  doc.map (fun rp => { height := rp.height, lines := extract_blocks rp })

/-- The list `cleaned_pages`: page texts of the pages before the annex
boundary (all pages when there is none), nonempty ones only. -/
def cleanedPages (removeFromAnnex : Bool) (doc : List RawPage) : List String :=
  let pages := prepPages doc
  let tr := topRepList pages
  let br := botRepList pages
  let annex := if removeFromAnnex then find_annex_start_page pages else none
  let limit := match annex with
    | some a => a
    | none => pages.length
  ((pages.take limit).map (fun p => pageCleanText tr br p)).filter (fun s => !(s == ""))

/-- The source function `get_pdf_text_clean_from_doc`: `text or None`. -/
def get_pdf_text_clean_from_doc (removeFromAnnex : Bool) (doc : List RawPage) :
    Option String :=
  let text := pyStripStr (String.intercalate "\n" (cleanedPages removeFromAnnex doc))
  if text = "" then none else some text


/-- Does the list start with a character failing `p` (or is empty)? -/
def headNot (p : Char → Bool) : List Char → Bool
  | [] => true
  | c :: _ => !p c

/-- Are the first two characters both noise? -/
def noiseAt2 : List Char → Bool
  | b :: c :: _ => isNoise b && isNoise c
  | _ => false

/-- No three consecutive noise characters anywhere in the list. -/
def noRun3 : List Char → Bool
  | [] => true
  | a :: t => !(isNoise a && noiseAt2 t) && noRun3 t

/-- Every whitespace character is a plain space not followed by
whitespace. -/
def wsOk : List Char → Bool
  | [] => true
  | a :: t =>
    (!pySpace a || (decide (a = Char.ofNat 32) && headNot pySpace t)) && wsOk t

/-! ## Concrete documents used by the claim instances -/

/-- A rectangle at vertical offset `y` (only `y0` matters to the code). -/
def mkBB (y : ℚ) : BBox := { x0 := 0, y0 := y, x1 := 100, y1 := 60 }

/-- Five-page document whose only annex-title candidate sits on page
index 2 (the third page): `5 // 2 = 2`, so the code accepts it although
`2 < 5 / 2` over the reals. -/
def exDocC1 : List Page :=
  [{ height := 100, lines := [(mkBB 50, "CORPO DO TEXTO")] },
   { height := 100, lines := [(mkBB 50, "CORPO DO TEXTO")] },
   { height := 100, lines := [(mkBB 10, "ANEXO I"), (mkBB 50, "CORPO DO TEXTO")] },
   { height := 100, lines := [(mkBB 50, "CORPO DO TEXTO")] },
   { height := 100, lines := [(mkBB 50, "CORPO DO TEXTO")] }]

/-- Four-page document with an annex-title candidate on its last page. -/
def exDocC1w : List Page :=
  [{ height := 100, lines := [(mkBB 50, "TEXTO DA NORMA")] },
   { height := 100, lines := [(mkBB 50, "TEXTO DA NORMA")] },
   { height := 100, lines := [(mkBB 50, "TEXTO DA NORMA")] },
   { height := 100, lines := [(mkBB 10, "ANEXO II"), (mkBB 50, "TEXTO DA NORMA")] }]

/-- Page shapes for the ten-page header-detection document. -/
def exPageC5a : Page :=
  { height := 100,
    lines := [(mkBB 5, "CÂMARA DOS DEPUTADOS"), (mkBB 8, "LINHA RARA"), (mkBB 50, "CORPO")] }

def exPageC5b : Page :=
  { height := 100, lines := [(mkBB 5, "CÂMARA DOS DEPUTADOS"), (mkBB 50, "CORPO")] }

def exPageC5c : Page :=
  { height := 100, lines := [(mkBB 50, "CORPO")] }

/-- Ten-page document: `CÂMARA DOS DEPUTADOS` in the top zone of exactly
5 pages, `LINHA RARA` in the top zone of exactly 1 page. -/
def exDocC5 : List Page :=
  [exPageC5a, exPageC5b, exPageC5b, exPageC5b, exPageC5b,
   exPageC5c, exPageC5c, exPageC5c, exPageC5c, exPageC5c]

/-- One-page raw document with a single mid-page body line. -/
def exDocC6 : List RawPage :=
  [{ height := 100, blocks := [(mkBB 50, "CONTEUDO DA PAGINA")] }]

/-- A body-only raw page. -/
def exPageBody : RawPage := { height := 100, blocks := [(mkBB 50, "ARTIGO PRIMEIRO")] }

/-- A raw page opening with the annex title at its top. -/
def exPageAnnex : RawPage :=
  { height := 100,
    blocks := [(mkBB 10, "ANEXO I - DISPOSIÇÕES FINAIS"), (mkBB 50, "ARTIGO PRIMEIRO")] }

/-- Ten-page raw document with the annex title at the top of page 8
(index 7, in the second half). -/
def exDocC7A : List RawPage :=
  [exPageBody, exPageBody, exPageBody, exPageBody, exPageBody,
   exPageBody, exPageBody, exPageAnnex, exPageBody, exPageBody]

/-- Ten-page raw document with the same title at the top of page 2
(index 1, in the first half). -/
def exDocC7B : List RawPage :=
  [exPageBody, exPageAnnex, exPageBody, exPageBody, exPageBody,
   exPageBody, exPageBody, exPageBody, exPageBody, exPageBody]

/-- Two-page document with a single top-zone line on its first page. -/
def exDocC10 : List Page :=
  [{ height := 100, lines := [(mkBB 5, "COMISSAO DE LEGISLACAO")] },
   { height := 100, lines := [(mkBB 50, "TEXTO")] }]

/-! ## Bridging lemmas for the computable rational wrappers -/

theorem qmul_eq (a b : ℚ) : qmul a b = a * b := by
  rw [qmul, Rat.mkRat_eq_div]
  push_cast
  rw [div_mul_eq_div_div_swap, mul_div_assoc, Rat.num_div_den, mul_comm,
    mul_div_assoc, Rat.num_div_den, mul_comm]

theorem qsub_eq (a b : ℚ) : qsub a b = a - b := by
  have ha : ((a.den : ℚ)) ≠ 0 := by positivity
  have hb : ((b.den : ℚ)) ≠ 0 := by positivity
  have h1 : (a.num : ℚ) / a.den * a.den = (a.num : ℚ) := div_mul_cancel₀ _ ha
  have h2 : (b.num : ℚ) / b.den * b.den = (b.num : ℚ) := div_mul_cancel₀ _ hb
  rw [Rat.num_div_den] at h1 h2
  rw [qsub, Rat.mkRat_eq_div]
  push_cast
  field_simp
  linear_combination (a.den : ℚ) * h2 - (b.den : ℚ) * h1

theorem qnat_eq (n : Nat) : qnat n = (n : ℚ) := by
  rw [qnat, Rat.mkRat_eq_div]
  push_cast
  exact div_one _

/-! ## Generic facts about `dropWhile` and `pyStrip` -/

theorem dropWhile_decomp (p : Char → Bool) :
    ∀ l : List Char, ∃ s, l = s ++ l.dropWhile p := by
  intro l
  induction l with
  | nil => exact ⟨[], rfl⟩
  | cons c cs ih =>
    by_cases h : p c = true
    · obtain ⟨s, hs⟩ := ih
      exact ⟨c :: s, by simp [List.dropWhile_cons, h]; exact hs⟩
    · exact ⟨[], by simp [List.dropWhile_cons, h]⟩

theorem headNot_dropWhile (p : Char → Bool) (l : List Char) :
    headNot p (l.dropWhile p) = true := by
  induction l with
  | nil => rfl
  | cons c cs ih =>
    by_cases h : p c = true
    · simpa [List.dropWhile_cons, h] using ih
    · simp [List.dropWhile_cons, h, headNot]

theorem dropWhile_of_headNot (p : Char → Bool) (l : List Char)
    (h : headNot p l = true) : l.dropWhile p = l := by
  cases l with
  | nil => rfl
  | cons c cs =>
    simp [headNot] at h
    simp [List.dropWhile_cons, h]

theorem pyStrip_headNot (l : List Char) :
    headNot pySpace (pyStrip l) = true ∧
    headNot pySpace (pyStrip l).reverse = true := by
  unfold pyStrip
  constructor
  · obtain ⟨s, hs⟩ := dropWhile_decomp pySpace (l.dropWhile pySpace).reverse
    have hA : headNot pySpace (l.dropWhile pySpace) = true := headNot_dropWhile _ _
    have hrev : l.dropWhile pySpace =
        ((l.dropWhile pySpace).reverse.dropWhile pySpace).reverse ++ s.reverse := by
      have := congrArg List.reverse hs
      simpa using this
    cases hB : ((l.dropWhile pySpace).reverse.dropWhile pySpace).reverse with
    | nil => rfl
    | cons c t =>
      rw [hB] at hrev
      rw [hrev] at hA
      simpa [headNot] using hA
  · simpa using headNot_dropWhile pySpace (l.dropWhile pySpace).reverse

theorem pyStrip_idem (l : List Char) : pyStrip (pyStrip l) = pyStrip l := by
  obtain ⟨h1, h2⟩ := pyStrip_headNot l
  conv_lhs => rw [pyStrip]
  rw [dropWhile_of_headNot _ _ h1, dropWhile_of_headNot _ _ h2, List.reverse_reverse]

theorem pyStripStr_idem (s : String) : pyStripStr (pyStripStr s) = pyStripStr s :=
  congrArg String.mk (pyStrip_idem s.data)

/-! ## Idempotence of `normalize_line`

The normal form of a line is characterised by three decidable
predicates: `noRun3` (no three consecutive noise characters, so the
first substitution is the identity), `wsOk` (every maximal whitespace
run is a single plain space, so the second substitution is the
identity), and `headNot` at both ends (so `strip` is the identity). -/

theorem dropWhile_length_le (p : Char → Bool) :
    ∀ l : List Char, (l.dropWhile p).length ≤ l.length := by
  intro l
  induction l with
  | nil => simp
  | cons c cs ih =>
    rw [List.dropWhile_cons]
    split
    · exact Nat.le_succ_of_le ih
    · simp

theorem noRun3_tail {a : Char} {t : List Char} (h : noRun3 (a :: t) = true) :
    noRun3 t = true := by
  simp [noRun3] at h
  exact h.2

theorem noiseAt2_false_of {c : Char} (t : List Char) (h : isNoise c = false) :
    noiseAt2 (c :: t) = false := by
  cases t <;> simp [noiseAt2, h]

theorem noRun3_cons_of {c : Char} {t : List Char} (hc : isNoise c = false)
    (ht : noRun3 t = true) : noRun3 (c :: t) = true := by
  simp [noRun3, hc, ht]

theorem noRun3_cons2 {a c : Char} {t : List Char} (hc : isNoise c = false)
    (ht : noRun3 (c :: t) = true) : noRun3 (a :: c :: t) = true := by
  simp [noRun3, noiseAt2_false_of t hc] at ht ⊢
  exact ht

theorem noRun3_short {l : List Char} (h : l.length ≤ 2) : noRun3 l = true := by
  match l, h with
  | [], _ => rfl
  | [a], _ => simp [noRun3, noiseAt2]
  | [a, b], _ => simp [noRun3, noiseAt2]

theorem noRun3_append_right {xs ys : List Char}
    (h : noRun3 (xs ++ ys) = true) : noRun3 ys = true := by
  induction xs with
  | nil => exact h
  | cons a xs ih => exact ih (noRun3_tail h)

theorem noiseAt2_append {xs : List Char} (ys : List Char)
    (h : noiseAt2 xs = true) : noiseAt2 (xs ++ ys) = true := by
  match xs, h with
  | b :: c :: t, h => simpa [noiseAt2] using h

theorem noRun3_append_left {xs ys : List Char}
    (h : noRun3 (xs ++ ys) = true) : noRun3 xs = true := by
  induction xs with
  | nil => rfl
  | cons a xs ih =>
    rw [List.cons_append] at h
    simp [noRun3] at h ⊢
    refine ⟨?_, ih h.2⟩
    cases h.1 with
    | inl ha => exact Or.inl ha
    | inr hn =>
      refine Or.inr ?_
      cases hx : noiseAt2 xs with
      | false => rfl
      | true => exact absurd (noiseAt2_append ys hx) (by simp [hn])

theorem noRun3_append_mid {m : Char} {xs ys : List Char}
    (hm : isNoise m = false) (hxs : xs.length ≤ 2)
    (hys : noRun3 ys = true) : noRun3 (xs ++ m :: ys) = true := by
  have base : noRun3 (m :: ys) = true := noRun3_cons_of hm hys
  match xs, hxs with
  | [], _ => exact base
  | [a], _ => exact noRun3_cons2 hm base
  | [a, b], _ =>
    have h1 : noRun3 (b :: m :: ys) = true := noRun3_cons2 hm base
    simpa [noRun3, noiseAt2, hm] using h1

theorem noRun3_dropWhile (p : Char → Bool) {l : List Char}
    (h : noRun3 l = true) : noRun3 (l.dropWhile p) = true := by
  obtain ⟨s, hs⟩ := dropWhile_decomp p l
  rw [hs] at h
  exact noRun3_append_right h

theorem wsOk_tail {a : Char} {t : List Char} (h : wsOk (a :: t) = true) :
    wsOk t = true := by
  simp [wsOk] at h
  exact h.2

theorem wsOk_append_right {xs ys : List Char}
    (h : wsOk (xs ++ ys) = true) : wsOk ys = true := by
  induction xs with
  | nil => exact h
  | cons a xs ih => exact ih (wsOk_tail h)

theorem wsOk_append_left {xs ys : List Char}
    (h : wsOk (xs ++ ys) = true) : wsOk xs = true := by
  induction xs with
  | nil => rfl
  | cons a xs ih =>
    rw [List.cons_append] at h
    have h2 := wsOk_tail h
    simp [wsOk] at h ⊢
    refine ⟨?_, ih h2⟩
    cases h.1 with
    | inl ha => exact Or.inl ha
    | inr hr =>
      obtain ⟨heq, hns⟩ := hr
      refine Or.inr ⟨heq, ?_⟩
      cases xs with
      | nil => rfl
      | cons c t => simpa [headNot] using hns

theorem wsOk_dropWhile (p : Char → Bool) {l : List Char}
    (h : wsOk l = true) : wsOk (l.dropWhile p) = true := by
  obtain ⟨s, hs⟩ := dropWhile_decomp p l
  rw [hs] at h
  exact wsOk_append_right h

/-- `pyStrip` preserves any predicate stable under removing a prefix and
removing a suffix. -/
theorem pyStrip_preserves (P : List Char → Bool)
    (hL : ∀ xs ys : List Char, P (xs ++ ys) = true → P xs = true)
    (hR : ∀ xs ys : List Char, P (xs ++ ys) = true → P ys = true)
    {l : List Char} (h : P l = true) : P (pyStrip l) = true := by
  obtain ⟨s1, hs1⟩ := dropWhile_decomp pySpace l
  have hA : P (l.dropWhile pySpace) = true := hR s1 _ (hs1 ▸ h)
  obtain ⟨s2, hs2⟩ := dropWhile_decomp pySpace (l.dropWhile pySpace).reverse
  have hsplit : l.dropWhile pySpace =
      ((l.dropWhile pySpace).reverse.dropWhile pySpace).reverse ++ s2.reverse := by
    have := congrArg List.reverse hs2
    simpa using this
  rw [hsplit] at hA
  exact hL _ _ hA

theorem flushRun_length (run : List Char) : (flushRun run).length ≤ 2 := by
  unfold flushRun
  split
  · simp
  · omega

theorem space_not_noise : isNoise (Char.ofNat 32) = false := by decide

/-- The output of the first substitution never has three consecutive
noise characters. -/
theorem noRun3_squashGo : ∀ (l run : List Char), noRun3 (squashGo run l) = true := by
  intro l
  induction l with
  | nil =>
    intro run
    exact noRun3_short (by simpa [squashGo] using flushRun_length run)
  | cons c cs ih =>
    intro run
    by_cases hc : isNoise c = true
    · simpa [squashGo, hc] using ih (run ++ [c])
    · rw [squashGo]
      simp only [hc, if_false]
      exact noRun3_append_mid (by simpa using hc) (flushRun_length run) (ih [])

theorem noRun3_squashNoise (l : List Char) : noRun3 (squashNoise l) = true :=
  noRun3_squashGo l []

/-- On lists without a three-noise run, the first substitution is the
identity (stated for the three reachable accumulator shapes). -/
theorem squashGo_fix : ∀ l : List Char,
    (noRun3 l = true → squashGo [] l = l) ∧
    (∀ a : Char, isNoise a = true → noRun3 (a :: l) = true →
      squashGo [a] l = a :: l) ∧
    (∀ a b : Char, isNoise a = true → isNoise b = true →
      noRun3 (a :: b :: l) = true → squashGo [a, b] l = a :: b :: l) := by
  intro l
  induction l with
  | nil =>
    refine ⟨fun _ => rfl, fun a _ _ => ?_, fun a b _ _ _ => ?_⟩
    · simp [squashGo, flushRun]
    · simp [squashGo, flushRun]
  | cons c cs ih =>
    obtain ⟨ih1, ih2, ih3⟩ := ih
    refine ⟨?_, ?_, ?_⟩
    · intro h
      by_cases hc : isNoise c = true
      · simpa [squashGo, hc] using ih2 c hc h
      · simp only [squashGo, hc, if_false]
        simp [flushRun, ih1 (noRun3_tail h)]
    · intro a ha h
      by_cases hc : isNoise c = true
      · simpa [squashGo, hc] using ih3 a c ha hc h
      · simp only [squashGo, hc, if_false]
        simp [flushRun, ih1 (noRun3_tail (noRun3_tail h))]
    · intro a b ha hb h
      have hc : isNoise c = false := by
        simp [noRun3, noiseAt2, ha, hb] at h
        simpa using h.1
      rw [squashGo]
      simp only [hc, if_false]
      simp [flushRun, ih1 (noRun3_tail (noRun3_tail (noRun3_tail h)))]

theorem squashNoise_fix {l : List Char} (h : noRun3 l = true) :
    squashNoise l = l := (squashGo_fix l).1 h

/-- Dropping the leading whitespace first, the two entry modes of the
collapse worker agree. -/
theorem collapseGo_true_eq : ∀ l : List Char,
    collapseGo true l = collapseGo false (l.dropWhile pySpace) := by
  intro l
  induction l with
  | nil => rfl
  | cons c cs ih =>
    by_cases hc : pySpace c = true
    · simpa [collapseGo, hc, List.dropWhile_cons] using ih
    · simp [collapseGo, hc, List.dropWhile_cons]

theorem collapseGo_true_of_headNot {l : List Char}
    (h : headNot pySpace l = true) : collapseGo true l = collapseGo false l := by
  rw [collapseGo_true_eq, dropWhile_of_headNot _ _ h]

/-- On `wsOk` lists the whitespace collapse is the identity. -/
theorem collapseGo_fix : ∀ l : List Char, wsOk l = true → collapseGo false l = l := by
  intro l
  induction l with
  | nil => intro _; rfl
  | cons c cs ih =>
    intro h
    have h2 : wsOk cs = true := wsOk_tail h
    by_cases hc : pySpace c = true
    · simp [wsOk, hc] at h
      obtain ⟨⟨heq, hns⟩, _⟩ := h
      rw [collapseGo]
      simp only [hc, if_true, if_false, Bool.false_eq_true]
      rw [collapseGo_true_of_headNot hns, ih h2, heq]
    · simp [collapseGo, hc, ih h2]

/-- The collapse output is `wsOk`, and in skip mode it starts with a
nonwhitespace character. -/
theorem wsOk_collapseGo : ∀ l : List Char,
    (∀ b : Bool, wsOk (collapseGo b l) = true) ∧
    headNot pySpace (collapseGo true l) = true := by
  intro l
  induction l with
  | nil => exact ⟨fun b => rfl, rfl⟩
  | cons c cs ih =>
    obtain ⟨ih1, ih2⟩ := ih
    by_cases hc : pySpace c = true
    · refine ⟨fun b => ?_, by simpa [collapseGo, hc] using ih2⟩
      cases b with
      | true => simpa [collapseGo, hc] using ih1 true
      | false =>
        rw [collapseGo]
        simp only [hc, if_true, Bool.false_eq_true, if_false]
        cases hX : collapseGo true cs with
        | nil => simp [wsOk, headNot]
        | cons d t =>
          have hd : pySpace d = false := by
            have := ih2
            rw [hX] at this
            simpa [headNot] using this
          have hw : wsOk (d :: t) = true := by
            have := ih1 true
            rwa [hX] at this
          simp only [wsOk]
          simp [headNot, hd, hw]
          exact wsOk_tail hw
    · refine ⟨fun b => ?_, by simp [collapseGo, hc, headNot]⟩
      cases b with
      | true =>
        simp only [collapseGo, hc, if_false, Bool.false_eq_true]
        simp only [wsOk]
        simp [hc, ih1 false]
      | false =>
        simp only [collapseGo, hc, if_false, Bool.false_eq_true]
        simp only [wsOk]
        simp [hc, ih1 false]

theorem wsOk_collapseWs (l : List Char) : wsOk (collapseWs l) = true :=
  (wsOk_collapseGo l).1 false

/-- The whitespace collapse preserves the absence of three-noise runs
(whitespace runs are replaced by single spaces, never deleted outright,
so noise runs are never merged).  Stated with an explicit two-character
left context for the induction. -/
theorem noRun3_collapseGo : ∀ (n : Nat) (l : List Char), l.length ≤ n →
    ∀ pre : List Char, pre.length ≤ 2 → noRun3 (pre ++ l) = true →
    noRun3 (pre ++ collapseGo false l) = true := by
  intro n
  induction n with
  | zero =>
    intro l hl pre _ h
    have : l = [] := List.eq_nil_of_length_eq_zero (Nat.le_zero.mp hl)
    subst this
    simpa [collapseGo] using h
  | succ n ih =>
    intro l hl pre hpre h
    cases l with
    | nil => simpa [collapseGo] using h
    | cons c cs =>
      by_cases hc : pySpace c = true
      · have hstep : collapseGo false (c :: cs) =
            Char.ofNat 32 :: collapseGo false (cs.dropWhile pySpace) := by
          rw [collapseGo]
          simp only [hc, if_true, Bool.false_eq_true, if_false]
          rw [collapseGo_true_eq]
        rw [hstep]
        have hcs : noRun3 cs = true :=
          noRun3_tail (noRun3_append_right h)
        have hdw : noRun3 (cs.dropWhile pySpace) = true :=
          noRun3_dropWhile pySpace hcs
        have hlen : (cs.dropWhile pySpace).length ≤ n := by
          have h1 := dropWhile_length_le pySpace cs
          simp at hl
          omega
        have hY : noRun3 (collapseGo false (cs.dropWhile pySpace)) = true := by
          simpa using ih (cs.dropWhile pySpace) hlen [] (by simp) (by simpa using hdw)
        exact noRun3_append_mid space_not_noise hpre hY
      · have hstep : collapseGo false (c :: cs) = c :: collapseGo false cs := by
          rw [collapseGo]
          simp [hc]
        rw [hstep]
        have hlen : cs.length ≤ n := by
          simp at hl
          omega
        match pre, hpre with
        | [], _ =>
          simpa using ih cs hlen [c] (by simp) (by simpa using h)
        | [a], _ =>
          have := ih cs hlen [a, c] (by simp)
            (by simpa using h)
          simpa using this
        | [a, b], _ =>
          have hbc : noRun3 ([b, c] ++ cs) = true := by
            have := noRun3_tail (show noRun3 (a :: (b :: c :: cs)) = true by simpa using h)
            simpa using this
          have hrec := ih cs hlen [b, c] (by simp) hbc
          have hfst : (!(isNoise a && noiseAt2 (b :: c :: cs))) = true := by
            have : noRun3 (a :: (b :: c :: cs)) = true := by simpa using h
            simp [noRun3] at this ⊢
            exact this.1
          have : noRun3 (a :: (b :: c :: collapseGo false cs)) = true := by
            simp only [noRun3]
            rw [show noiseAt2 (b :: c :: collapseGo false cs) =
                noiseAt2 (b :: c :: cs) by simp [noiseAt2]]
            simp only [hfst, Bool.true_and]
            exact hrec
          simpa using this

/-- The composite normal form: the output of `normalize_line` is
unchanged by each of the three stages. -/
theorem normalize_line_normal (s : String) :
    noRun3 (normalize_line s).data = true ∧
    wsOk (normalize_line s).data = true ∧
    headNot pySpace (normalize_line s).data = true ∧
    headNot pySpace (normalize_line s).data.reverse = true := by
  have hdata : (normalize_line s).data = pyStrip (collapseWs (squashNoise s.data)) := rfl
  have h1 : noRun3 (collapseWs (squashNoise s.data)) = true := by
    have := noRun3_collapseGo (squashNoise s.data).length (squashNoise s.data)
      (Nat.le_refl _) [] (by simp) (by simpa using noRun3_squashNoise s.data)
    simpa [collapseWs] using this
  have h2 : wsOk (collapseWs (squashNoise s.data)) = true :=
    wsOk_collapseWs (squashNoise s.data)
  refine ⟨?_, ?_, ?_, ?_⟩
  · rw [hdata]
    exact pyStrip_preserves noRun3 (fun xs ys h => noRun3_append_left h)
      (fun xs ys h => noRun3_append_right h) h1
  · rw [hdata]
    exact pyStrip_preserves wsOk (fun xs ys h => wsOk_append_left h)
      (fun xs ys h => wsOk_append_right h) h2
  · rw [hdata]
    exact (pyStrip_headNot _).1
  · rw [hdata]
    exact (pyStrip_headNot _).2

/-- Idempotence of the source normalizer. -/
theorem normalize_line_idem (s : String) :
    normalize_line (normalize_line s) = normalize_line s := by
  obtain ⟨h1, h2, h3, h4⟩ := normalize_line_normal s
  show (⟨pyStrip (collapseWs (squashNoise (normalize_line s).data))⟩ : String) =
    normalize_line s
  rw [squashNoise_fix h1]
  rw [show collapseWs (normalize_line s).data = (normalize_line s).data from
    collapseGo_fix _ h2]
  rw [show pyStrip (normalize_line s).data = (normalize_line s).data from ?_]
  · rw [pyStrip]
    rw [dropWhile_of_headNot _ _ h3, dropWhile_of_headNot _ _ h4, List.reverse_reverse]

/-! ## Claim theorems -/

/-- C4: line normalization is idempotent and total: for every input
string `s`, `normalize_line (normalize_line s) = normalize_line s`, and
`normalize_line` always returns a result. -/
theorem C4_normalize_idempotent_total :
    ∀ s : String, normalize_line (normalize_line s) = normalize_line s ∧
      ∃ t : String, normalize_line s = t :=
  fun s => ⟨normalize_line_idem s, ⟨_, rfl⟩⟩

/-- C2: contrary to the claim (and to the comment in the source, which
says the regex identifies `ANEXO ÚNICO`), the annex-title classifier
rejects the word `ÚNICO`: the character class `[IVXLCDM0-9]` cannot
match it, so `looks_like_annex_title` returns false on `ANEXO ÚNICO`,
with or without a separator tail. -/
theorem C2_anexo_unico_rejected :
    looks_like_annex_title "ANEXO ÚNICO" = false ∧
    looks_like_annex_title "ANEXO ÚNICO - TABELA DE VALORES" = false ∧
    looks_like_annex_title "ANEXO ÚNICO: METAS" = false := by
  refine ⟨by decide, by decide, by decide⟩

/-- C8: the page-number classifier accepts exactly the three specified
shapes (`3`, `Página 3 de 10`, `3/25`), rejects `ANEXO I` and a bare
`Página`, and is total: whenever none of the three shape matchers fires
on the stripped line, it returns false. -/
theorem C8_page_number_classifier :
    is_page_number "3" = true ∧ is_page_number "Página 3 de 10" = true ∧
    is_page_number "3/25" = true ∧ is_page_number "ANEXO I" = false ∧
    is_page_number "Página" = false ∧
    (∀ s : String, matchDigits14 (pyStrip s.data) = false →
      matchPagina (pyStrip s.data) = false → matchSlash (pyStrip s.data) = false →
      is_page_number s = false) := by
  refine ⟨by decide, by decide, by decide, by decide, by decide, ?_⟩
  intro s h1 h2 h3
  simp [is_page_number, h1, h2, h3]

/-- Witness for C8 at a concrete unmatched input. -/
theorem C8_witness : is_page_number "texto comum da lei" = false :=
  C8_page_number_classifier.2.2.2.2.2 "texto comum da lei"
    (by decide) (by decide) (by decide)

theorem mem_of_mem_dropWhile {p : Char → Bool} {c : Char} {l : List Char}
    (h : c ∈ l.dropWhile p) : c ∈ l := by
  obtain ⟨s, hs⟩ := dropWhile_decomp p l
  rw [hs]
  exact List.mem_append_right _ h

theorem mem_of_mem_pyStrip {c : Char} {l : List Char} (h : c ∈ pyStrip l) :
    c ∈ l := by
  rw [pyStrip, List.mem_reverse] at h
  have h2 := mem_of_mem_dropWhile h
  rw [List.mem_reverse] at h2
  exact mem_of_mem_dropWhile h2

theorem plBacktick_mem {l : List Char} (h : plBacktick l = true) :
    Char.ofNat 96 ∈ l := by
  cases l with
  | nil => simp [plBacktick] at h
  | cons c rest =>
    simp [plBacktick] at h
    exact h.1 ▸ List.mem_cons_self c rest

/-- The malformed bill-identifier pattern can only match a line that
contains a literal backtick character. -/
theorem matchPL_backtick {l : List Char} (h : matchPL l = true) :
    Char.ofNat 96 ∈ l := by
  cases l with
  | nil => simp [matchPL] at h
  | cons a t =>
    cases t with
    | nil => simp [matchPL] at h
    | cons b rest =>
      simp [matchPL] at h
      have h3 : plAfterPL rest = true := h.2
      unfold plAfterPL at h3
      cases hd : rest.dropWhile pySpace with
      | nil => rw [hd] at h3; simp at h3
      | cons c r =>
        rw [hd] at h3
        have h4 : (if pyLowerChar c = Char.ofNat 110 then plBacktick r
            else plBacktick (c :: r)) = true := h3
        have hin : Char.ofNat 96 ∈ rest := by
          by_cases hn : pyLowerChar c = Char.ofNat 110
          · rw [if_pos hn] at h4
            have hm : Char.ofNat 96 ∈ c :: r := List.mem_cons_of_mem _ (plBacktick_mem h4)
            exact mem_of_mem_dropWhile (hd ▸ hm)
          · rw [if_neg hn] at h4
            exact mem_of_mem_dropWhile (hd ▸ plBacktick_mem h4)
        exact List.mem_cons_of_mem _ (List.mem_cons_of_mem _ hin)

theorem srg_pl_no_backtick {line : String} (hbt : Char.ofNat 96 ∉ line.data) :
    srg_pl line = false := by
  cases hpl : srg_pl line with
  | false => rfl
  | true =>
    rw [srg_pl] at hpl
    exact absurd (mem_of_mem_pyStrip (matchPL_backtick hpl)) hbt

/-- C3 counterexample: a line on which the standalone bill-identifier
branch does fire although neither the blacklist nor the protocol branch
does, refuting both halves of the claim. -/
theorem C3_counterexample :
    should_remove_global "pl`.ibl12/34" = true ∧
    srg_banned "pl`.ibl12/34" = false ∧ srg_proto "pl`.ibl12/34" = false := by
  refine ⟨by decide, by decide, by decide⟩

/-- C3 (amended): the standalone bill-identifier branch fires only on
lines containing a literal backtick; on every backtick-free line the
filter returns true iff the casefolded line contains a banned substring
or the line matches the protocol-code shape. -/
theorem C3_no_backtick_iff :
    ∀ line : String, Char.ofNat 96 ∉ line.data →
      should_remove_global line = (srg_banned line || srg_proto line) := by
  intro line hbt
  by_cases he : line = ""
  · subst he
    decide
  · rw [should_remove_global, if_neg he, srg_pl_no_backtick hbt]
    simp

/-- Witness for the amended C3 at a concrete backtick-free line. -/
theorem C3_witness :
    should_remove_global "PL 1234/2025" =
      (srg_banned "PL 1234/2025" || srg_proto "PL 1234/2025") :=
  C3_no_backtick_iff "PL 1234/2025" (by decide)

/-- C9: every line whose casefolded form contains the substring
`assinado eletronicamente` is flagged by the boilerplate filter, and no
occurrence of such a line survives the per-page filtering step, whatever
the page height, position or header/footer sets. -/
theorem C9_assinado_always_removed :
    ∀ line : String,
      isInfixL "assinado eletronicamente".data (pyCasefold line.data) = true →
      should_remove_global line = true ∧
      ∀ (tr br : List String) (h : ℚ) (lines : List (BBox × String)),
        line ∉ cleanPageKeep tr br h lines := by
  intro line hinf
  have hne : line ≠ "" := by
    intro he
    rw [he] at hinf
    exact absurd hinf (by decide)
  have hban : srg_banned line = true := by
    unfold srg_banned
    rw [List.any_eq_true]
    exact ⟨"assinado eletronicamente", by decide, hinf⟩
  have hsrg : should_remove_global line = true := by
    rw [should_remove_global, if_neg hne, hban]
    simp
  refine ⟨hsrg, ?_⟩
  intro tr br h lines hmem
  unfold cleanPageKeep at hmem
  rw [List.mem_map] at hmem
  obtain ⟨bl, hbl, hsnd⟩ := hmem
  rw [List.mem_filter] at hbl
  have hdrop : dropLine tr br h bl = false := by simpa using hbl.2
  rw [dropLine] at hdrop
  simp only [Bool.or_eq_false_iff] at hdrop
  have hfst : should_remove_global bl.2 = false := hdrop.1.1.1
  rw [hsnd, hsrg] at hfst
  cases hfst

/-- Witness for C9 at a concrete signature line and page. -/
theorem C9_witness :
    should_remove_global "Documento Assinado Eletronicamente pelo autor" = true ∧
    "Documento Assinado Eletronicamente pelo autor" ∉
      cleanPageKeep [] [] 100
        [(mkBB 50, "Documento Assinado Eletronicamente pelo autor")] :=
  ⟨(C9_assinado_always_removed _ (by decide)).1,
   (C9_assinado_always_removed _ (by decide)).2 [] [] 100 _⟩

/-- C1 counterexample: on the five-page document `exDocC1` the last
annex-title candidate page is index 2; over the reals `2 < 5 / 2`, so
the claim (real division) predicts no annex, yet the code, which uses
Python floor division (`5 // 2 = 2`), accepts index 2. -/
theorem C1_counterexample :
    find_annex_start_page exDocC1 = some 2 ∧ exDocC1.length = 5 ∧
    ((2 : ℚ) < (exDocC1.length : ℚ) / 2) := by
  refine ⟨by decide, by decide, ?_⟩
  norm_num [exDocC1]

/-- C1 (amended): the annex detector accepts the last candidate page
index `s` exactly when `totalPages / 2 ≤ s` with *integer floor
division* (Python `//`); any candidate strictly below that floor yields
no annex. -/
theorem C1_floor_division :
    ∀ (pages : List Page) (s : Nat),
      (find_annex_start_page pages = some s → pages.length / 2 ≤ s) ∧
      ((annexCandidatePages pages).getLast? = some s →
        (s < pages.length / 2 → find_annex_start_page pages = none) ∧
        (pages.length / 2 ≤ s → find_annex_start_page pages = some s)) := by
  intro pages s
  constructor
  · intro h
    rw [find_annex_start_page] at h
    cases hL : (annexCandidatePages pages).getLast? with
    | none => rw [hL] at h; exact absurd h (by simp)
    | some st =>
      rw [hL] at h
      have h2 : (if st < pages.length / 2 then (none : Option Nat) else some st) =
        some s := h
      by_cases hlt : st < pages.length / 2
      · rw [if_pos hlt] at h2; exact absurd h2 (by simp)
      · rw [if_neg hlt] at h2
        have : st = s := by simpa using h2
        omega
  · intro hL
    constructor
    · intro hlt
      rw [find_annex_start_page, hL]
      show (if s < pages.length / 2 then (none : Option Nat) else some s) = none
      rw [if_pos hlt]
    · intro hge
      rw [find_annex_start_page, hL]
      show (if s < pages.length / 2 then (none : Option Nat) else some s) = some s
      rw [if_neg (by omega)]

/-- Witness for the amended C1: a four-page document whose last
candidate is index 3 with `4 / 2 = 2 ≤ 3`. -/
theorem C1_witness : find_annex_start_page exDocC1w = some 3 :=
  ((C1_floor_division exDocC1w 3).2 (by decide)).2 (by decide)

/-- Membership in a detected header/footer set is exactly the threshold
condition on the presence count, for either zone. -/
theorem repList_iff (cand : Page → List String) (pages : List Page) (t : String)
    (hn : 0 < pages.length) :
    (t ∈ ((pages.map cand).flatten.dedup).filter
        (fun u => decide (qmul REPEAT_THRESHOLD (qnat pages.length) ≤
          qnat (pages.countP (fun p => decide (u ∈ cand p))))) ↔
      REPEAT_THRESHOLD * (pages.length : ℚ) ≤
        (pages.countP (fun p => decide (t ∈ cand p)) : ℚ)) := by
  rw [List.mem_filter, List.mem_dedup, List.mem_flatten]
  constructor
  · rintro ⟨-, hd⟩
    rw [decide_eq_true_eq, qmul_eq, qnat_eq, qnat_eq] at hd
    exact hd
  · intro hq
    have hpos : (0 : ℚ) < REPEAT_THRESHOLD * (pages.length : ℚ) := by
      apply mul_pos
      · rw [REPEAT_THRESHOLD, Rat.mkRat_eq_div]
        norm_num
      · exact_mod_cast hn
    have hc : 0 < pages.countP (fun p => decide (t ∈ cand p)) := by
      by_contra hz
      push_neg at hz
      have h0 : (pages.countP (fun p => decide (t ∈ cand p)) : ℚ) = 0 := by
        exact_mod_cast Nat.le_zero.mp hz
      rw [h0] at hq
      linarith
    obtain ⟨p, hp, hpt⟩ := List.countP_pos_iff.mp hc
    refine ⟨⟨cand p, List.mem_map_of_mem _ hp, of_decide_eq_true hpt⟩, ?_⟩
    rw [decide_eq_true_eq, qmul_eq, qnat_eq, qnat_eq]
    exact hq

/-- C5: a text is a detected header (footer) iff the number of pages
whose top (bottom) candidate set contains it is at least
`REPEAT_THRESHOLD * totalPages`; on the concrete ten-page document a
line present in the top zone of 5 pages is detected and a line present
on 1 page is not (threshold 0.40, 10 pages, 4 required). -/
theorem C5_threshold_iff :
    (∀ (pages : List Page) (t : String), 0 < pages.length →
      (t ∈ topRepList pages ↔
        REPEAT_THRESHOLD * (pages.length : ℚ) ≤ (topPresence pages t : ℚ))) ∧
    (∀ (pages : List Page) (t : String), 0 < pages.length →
      (t ∈ botRepList pages ↔
        REPEAT_THRESHOLD * (pages.length : ℚ) ≤ (botPresence pages t : ℚ))) ∧
    exDocC5.length = 10 ∧ topPresence exDocC5 "CÂMARA DOS DEPUTADOS" = 5 ∧
    "CÂMARA DOS DEPUTADOS" ∈ topRepList exDocC5 ∧
    topPresence exDocC5 "LINHA RARA" = 1 ∧ "LINHA RARA" ∉ topRepList exDocC5 :=
  ⟨fun pages t hn => repList_iff topCandTexts pages t hn,
   fun pages t hn => repList_iff botCandTexts pages t hn,
   by decide, by decide, by decide, by decide, by decide⟩

/-- Witness for C5 at the concrete ten-page document. -/
theorem C5_witness :
    ("CÂMARA DOS DEPUTADOS" ∈ topRepList exDocC5 ↔
      REPEAT_THRESHOLD * (exDocC5.length : ℚ) ≤
        (topPresence exDocC5 "CÂMARA DOS DEPUTADOS" : ℚ)) :=
  C5_threshold_iff.1 exDocC5 "CÂMARA DOS DEPUTADOS" (by decide)

/-- C10: in a document of at most two pages, every line occurring in a
top zone and not classified as a page number becomes a detected header
(one presence already reaches `0.40 * totalPages`), and the filtering
step drops that occurrence. -/
theorem C10_short_document_headers :
    ∀ (doc : List Page) (p : Page) (b : BBox) (l : String),
      doc.length ≤ 2 → p ∈ doc → (b, l) ∈ p.lines →
      b.y0 ≤ p.height * TOP_FRAC → is_page_number l = false →
      l ∈ topRepList doc ∧
      dropLine (topRepList doc) (botRepList doc) p.height (b, l) = true := by
  intro doc p b l hlen hp hbl hy hpn
  have hzone : decide (b.y0 ≤ qmul p.height TOP_FRAC) = true := by
    rw [decide_eq_true_eq, qmul_eq]
    exact hy
  have hcand : l ∈ topCandTexts p := by
    rw [topCandTexts]
    refine List.mem_map.mpr ⟨(b, l), List.mem_filter.mpr ⟨hbl, ?_⟩, rfl⟩
    simp [hzone, hpn]
  have hcount : 0 < topPresence doc l := by
    rw [topPresence]
    exact List.countP_pos_iff.mpr ⟨p, hp, decide_eq_true hcand⟩
  have hthr : REPEAT_THRESHOLD * (doc.length : ℚ) ≤ (topPresence doc l : ℚ) := by
    have hn2 : (doc.length : ℚ) ≤ 2 := by exact_mod_cast hlen
    have hn0 : (0 : ℚ) ≤ (doc.length : ℚ) := by positivity
    have h1 : REPEAT_THRESHOLD * (doc.length : ℚ) ≤ 1 := by
      rw [REPEAT_THRESHOLD, Rat.mkRat_eq_div]
      nlinarith
    have h2 : (1 : ℚ) ≤ (topPresence doc l : ℚ) := by exact_mod_cast hcount
    linarith
  have hmem : l ∈ topRepList doc := by
    rw [topRepList, List.mem_filter, List.mem_dedup, List.mem_flatten]
    refine ⟨⟨topCandTexts p, List.mem_map_of_mem _ hp, hcand⟩, ?_⟩
    rw [decide_eq_true_eq, qmul_eq, qnat_eq, qnat_eq]
    exact hthr
  refine ⟨hmem, ?_⟩
  rw [dropLine]
  simp [hmem, hzone]

/-- Witness for C10 at a concrete two-page document. -/
theorem C10_witness :
    "COMISSAO DE LEGISLACAO" ∈ topRepList exDocC10 ∧
    dropLine (topRepList exDocC10) (botRepList exDocC10) 100
      (mkBB 5, "COMISSAO DE LEGISLACAO") = true :=
  C10_short_document_headers exDocC10
    { height := 100, lines := [(mkBB 5, "COMISSAO DE LEGISLACAO")] }
    (mkBB 5) "COMISSAO DE LEGISLACAO" (by decide) (by decide) (by decide)
    (by rw [← qmul_eq]; decide) (by decide)

/-- C6: the pipeline never returns an empty string: a zero-page document
yields the explicit no-text outcome, and any returned text is nonempty
and trimmed. -/
theorem C6_no_empty_result :
    (∀ rfa : Bool, get_pdf_text_clean_from_doc rfa [] = none) ∧
    (∀ (rfa : Bool) (doc : List RawPage) (s : String),
      get_pdf_text_clean_from_doc rfa doc = some s →
      s ≠ "" ∧ pyStripStr s = s) := by
  constructor
  · intro rfa
    cases rfa <;> rfl
  · intro rfa doc s h
    simp only [get_pdf_text_clean_from_doc] at h
    by_cases he : pyStripStr (String.intercalate "\n" (cleanedPages rfa doc)) = ""
    · rw [if_pos he] at h
      exact absurd h (by simp)
    · rw [if_neg he] at h
      have hs : s = pyStripStr (String.intercalate "\n" (cleanedPages rfa doc)) := by
        injection h with h2
        exact h2.symm
      constructor
      · rw [hs]
        exact he
      · rw [hs]
        exact pyStripStr_idem _

/-- Witness for C6 at a concrete one-page document. -/
theorem C6_witness :
    "CONTEUDO DA PAGINA" ≠ "" ∧
    pyStripStr "CONTEUDO DA PAGINA" = "CONTEUDO DA PAGINA" :=
  C6_no_empty_result.2 false exDocC6 "CONTEUDO DA PAGINA" (by decide)

/-- C7: with annex truncation enabled, a found boundary page `a` cuts
the output to the pages before index `a`; concretely, the title
`ANEXO I - DISPOSIÇÕES FINAIS` at the top of page 8 (index 7) of a
ten-page document sets the boundary there and pages 8 to 10 contribute
nothing, while the same title at the top of page 2 (index 1) yields no
boundary and no truncation. -/
theorem C7_annex_truncation :
    (∀ (doc : List RawPage) (a : Nat),
      find_annex_start_page (prepPages doc) = some a →
      cleanedPages true doc =
        (((prepPages doc).take a).map (fun p =>
          pageCleanText (topRepList (prepPages doc))
            (botRepList (prepPages doc)) p)).filter (fun s => !(s == ""))) ∧
    find_annex_start_page (prepPages exDocC7A) = some 7 ∧
    get_pdf_text_clean_from_doc true exDocC7A = some "ARTIGO PRIMEIRO\nARTIGO PRIMEIRO\nARTIGO PRIMEIRO\nARTIGO PRIMEIRO\nARTIGO PRIMEIRO\nARTIGO PRIMEIRO\nARTIGO PRIMEIRO" ∧
    find_annex_start_page (prepPages exDocC7B) = none ∧
    get_pdf_text_clean_from_doc true exDocC7B = some "ARTIGO PRIMEIRO\nANEXO I - DISPOSIÇÕES FINAIS ARTIGO PRIMEIRO\nARTIGO PRIMEIRO\nARTIGO PRIMEIRO\nARTIGO PRIMEIRO\nARTIGO PRIMEIRO\nARTIGO PRIMEIRO\nARTIGO PRIMEIRO\nARTIGO PRIMEIRO\nARTIGO PRIMEIRO" := by
  refine ⟨?_, by decide, by decide, by decide, by decide⟩
  intro doc a h
  simp only [cleanedPages, if_true, h]

/-- Witness for C7 at the concrete ten-page document with the annex on
page 8. -/
theorem C7_witness :
    cleanedPages true exDocC7A =
      (((prepPages exDocC7A).take 7).map (fun p =>
        pageCleanText (topRepList (prepPages exDocC7A))
          (botRepList (prepPages exDocC7A)) p)).filter (fun s => !(s == "")) :=
  C7_annex_truncation.1 exDocC7A 7 (by decide)

end Extrair
